import Mathlib

/-!
Verification of the go-hawk repository (gitlab.com/tdely/go-hawk) against its
natural-language specification.

The development shallowly embeds src/hawk.go: byte strings become `List Nat`
(one entry per byte; Lean strings are converted codepoint-wise, which agrees
with Go byte-wise on the ASCII data the protocol uses), Go methods with
pointer receivers become functions returning the updated `Hawk` value
alongside their boolean result, and the package-level randomness source of
`NewNonce` becomes an explicit stream parameter.  SHA-256, HMAC and standard
base64 are implemented executably so that known-answer theorems evaluate
inside the kernel.
-/

set_option maxRecDepth 100000

namespace GoHawk

/-! ## Bytes and 32-bit arithmetic -/

/-- Truncate to 32 bits. -/
def w32 (x : Nat) : Nat := x % 4294967296

/-- 32-bit right rotation. -/
def rotr (n x : Nat) : Nat := w32 ((x >>> n) ||| (x <<< (32 - n)))

/-- A Lean string as a byte list (codepoint-wise; byte-faithful on ASCII). -/
def strBytes (s : String) : List Nat := s.data.map Char.toNat

/-! ## SHA-256 -/

/-- The SHA-256 round constants (FIPS 180-4 section 4.2.2), in decimal. -/
def shaK : List Nat :=
  [1116352408, 1899447441, 3049323471, 3921009573, 961987163,
   1508970993, 2453635748, 2870763221, 3624381080, 310598401,
   607225278, 1426881987, 1925078388, 2162078206, 2614888103,
   3248222580, 3835390401, 4022224774, 264347078, 604807628,
   770255983, 1249150122, 1555081692, 1996064986, 2554220882,
   2821834349, 2952996808, 3210313671, 3336571891, 3584528711,
   113926993, 338241895, 666307205, 773529912, 1294757372,
   1396182291, 1695183700, 1986661051, 2177026350, 2456956037,
   2730485921, 2820302411, 3259730800, 3345764771, 3516065817,
   3600352804, 4094571909, 275423344, 430227734, 506948616,
   659060556, 883997877, 958139571, 1322822218, 1537002063,
   1747873779, 1955562222, 2024104815, 2227730452, 2361852424,
   2428436474, 2756734187, 3204031479, 3329325298]

/-- The eight 32-bit words of a SHA-256 chaining state. -/
structure Digest8 where
  a : Nat
  b : Nat
  c : Nat
  d : Nat
  e : Nat
  f : Nat
  g : Nat
  h : Nat
deriving Repr, DecidableEq

/-- SHA-256 initial chaining state (FIPS 180-4 section 5.3.3), in decimal. -/
def shaH0 : Digest8 :=
  ⟨1779033703, 3144134277, 1013904242, 2773480762,
   1359893119, 2600822924, 528734635, 1541459225⟩

/-- One message-schedule extension step; the schedule so far is kept in
reverse order (most recent word first). -/
def schedStep (acc : List Nat) : List Nat :=
  let w2 := acc.getD 1 0
  let w7 := acc.getD 6 0
  let w15 := acc.getD 14 0
  let w16 := acc.getD 15 0
  let s0 := (rotr 7 w15) ^^^ (rotr 18 w15) ^^^ (w15 >>> 3)
  let s1 := (rotr 17 w2) ^^^ (rotr 19 w2) ^^^ (w2 >>> 10)
  w32 (s1 + w7 + s0 + w16) :: acc

/-- Iterate the schedule extension. -/
def schedExt : Nat → List Nat → List Nat
  | 0, acc => acc
  | n + 1, acc => schedExt n (schedStep acc)

/-- The 64-word message schedule of one 16-word block. -/
def schedule (block : List Nat) : List Nat :=
  (schedExt 48 block.reverse).reverse

/-- One SHA-256 compression round. -/
def roundStep (st : Digest8) (kw : Nat × Nat) : Digest8 :=
  let bigS1 := (rotr 6 st.e) ^^^ (rotr 11 st.e) ^^^ (rotr 25 st.e)
  let ch := (st.e &&& st.f) ^^^ ((4294967295 ^^^ st.e) &&& st.g)
  let temp1 := w32 (st.h + bigS1 + ch + kw.1 + kw.2)
  let bigS0 := (rotr 2 st.a) ^^^ (rotr 13 st.a) ^^^ (rotr 22 st.a)
  let maj := (st.a &&& st.b) ^^^ (st.a &&& st.c) ^^^ (st.b &&& st.c)
  let temp2 := w32 (bigS0 + maj)
  ⟨w32 (temp1 + temp2), st.a, st.b, st.c, w32 (st.d + temp1), st.e, st.f, st.g⟩

/-- Pointwise 32-bit addition of chaining states. -/
def addDigest (x y : Digest8) : Digest8 :=
  ⟨w32 (x.a + y.a), w32 (x.b + y.b), w32 (x.c + y.c), w32 (x.d + y.d),
   w32 (x.e + y.e), w32 (x.f + y.f), w32 (x.g + y.g), w32 (x.h + y.h)⟩

/-- Compress one 16-word block into the chaining state. -/
def compress (st : Digest8) (block : List Nat) : Digest8 :=
  addDigest st ((shaK.zip (schedule block)).foldl roundStep st)

/-- Group bytes into 32-bit big-endian words. -/
def toWords : List Nat → List Nat
  | b0 :: b1 :: b2 :: b3 :: rest =>
      ((b0 <<< 24) ||| (b1 <<< 16) ||| (b2 <<< 8) ||| b3) :: toWords rest
  | _ => []

/-- SHA-256 padding: 0x80, zeros to 56 mod 64, then the 64-bit big-endian
bit length. -/
def shaPad (msg : List Nat) : List Nat :=
  let len := msg.length
  let zeros := (119 - len % 64) % 64
  msg ++ [0x80] ++ List.replicate zeros 0 ++
    [((8 * len) >>> 56) % 256, ((8 * len) >>> 48) % 256, ((8 * len) >>> 40) % 256,
     ((8 * len) >>> 32) % 256, ((8 * len) >>> 24) % 256, ((8 * len) >>> 16) % 256,
     ((8 * len) >>> 8) % 256, (8 * len) % 256]

/-- Split a word list into 16-word blocks (fuel-based for kernel reduction). -/
def chunksAux : Nat → List Nat → List (List Nat)
  | 0, _ => []
  | _, [] => []
  | n + 1, w :: ws => ((w :: ws).take 16) :: chunksAux n (ws.drop 15)

/-- Split a word list into 16-word blocks. -/
def chunks (ws : List Nat) : List (List Nat) := chunksAux ws.length ws

/-- A 32-bit word as four big-endian bytes. -/
def word2bytes (x : Nat) : List Nat :=
  [(x >>> 24) % 256, (x >>> 16) % 256, (x >>> 8) % 256, x % 256]

/-- Serialize the chaining state to 32 digest bytes. -/
def digestBytes (d : Digest8) : List Nat :=
  word2bytes d.a ++ word2bytes d.b ++ word2bytes d.c ++ word2bytes d.d ++
  word2bytes d.e ++ word2bytes d.f ++ word2bytes d.g ++ word2bytes d.h

/-- SHA-256 of a byte list. -/
def sha256 (msg : List Nat) : List Nat :=
  digestBytes ((chunks (toWords (shaPad msg))).foldl compress shaH0)

/-- HMAC-SHA256 (block size 64), as produced by crypto/hmac over crypto/sha256. -/
def hmacSha256 (key msg : List Nat) : List Nat :=
  let k0 := if key.length > 64 then sha256 key else key
  let kp := k0 ++ List.replicate (64 - k0.length) 0
  let ipad := kp.map (fun b => b ^^^ 0x36)
  let opad := kp.map (fun b => b ^^^ 0x5c)
  sha256 (opad ++ sha256 (ipad ++ msg))

/-! ## Standard base64 (encoding/base64 StdEncoding) -/

/-- The standard base64 alphabet. -/
def b64Alphabet : List Char :=
  "ABCDEFGHIJKLMNOPQRSTUVWXYZabcdefghijklmnopqrstuvwxyz0123456789+/".data

/-- Alphabet lookup. -/
def b64Char (n : Nat) : Char := b64Alphabet.getD n 'A'

/-- Encode byte triples, padding the final group with `=`. -/
def b64Aux : Nat → List Nat → List Char
  | 0, _ => []
  | _, [] => []
  | _ + 1, [b0] =>
      [b64Char (b0 >>> 2), b64Char ((b0 % 4) <<< 4), '=', '=']
  | _ + 1, [b0, b1] =>
      [b64Char (b0 >>> 2), b64Char (((b0 % 4) <<< 4) ||| (b1 >>> 4)),
       b64Char ((b1 % 16) <<< 2), '=']
  | f + 1, b0 :: b1 :: b2 :: rest =>
      b64Char (b0 >>> 2) :: b64Char (((b0 % 4) <<< 4) ||| (b1 >>> 4)) ::
      b64Char (((b1 % 16) <<< 2) ||| (b2 >>> 6)) :: b64Char (b2 % 64) ::
      b64Aux f rest

/-- Standard base64 with padding. -/
def base64 (bs : List Nat) : String := ⟨b64Aux bs.length bs⟩

/-! ## The hash-algorithm capability (crypto.Hash)

Go identifies hash algorithms by a `crypto.Hash` token; an unregistered or
zero token is unavailable and calling `New` on it panics, so every context
that actually hashes carries an available algorithm.  The repository
registers and exercises SHA-256, which is the algorithm modelled here; a
missing algorithm is modelled as `Option.none` on the `Details` side. -/

inductive HashAlg where
  | SHA256
deriving Repr, DecidableEq

/-- Plain digest of an available algorithm (`h.New(); Write; Sum`). -/
def algDigest : HashAlg → List Nat → List Nat
  | .SHA256 => sha256

/-- Keyed MAC of an available algorithm (`hmac.New(h.New, k)`). -/
def algHMAC : HashAlg → List Nat → List Nat → List Nat
  | .SHA256 => hmacSha256

/-! ## Data model (src/hawk.go) -/

/-- The `Hawk` struct of src/hawk.go. -/
structure Hawk where
  algorithm : HashAlg
  host : String
  port : String
  uri : String
  method : String
  timestamp : Int
  nonce : String
  reqContentType : String
  reqContent : List Nat
  reqExt : String
  reqHash : String
  reqMAC : String
  respContentType : String
  respContent : List Nat
  respExt : String
  respHash : String
  respMAC : String
deriving Repr, DecidableEq

/-- The zero value `Hawk{}` returned on the error path of `Create`.  Its Go
algorithm field is the unusable `crypto.Hash(0)`; since no claim hashes with
the zero context, it is represented by the default constructor here. -/
def hawkZero : Hawk :=
  ⟨.SHA256, "", "", "", "", 0, "", "", [], "", "", "", "", [], "", "", ""⟩

/-- The `Details` struct of src/hawk.go; `Algorithm = none` models an
unavailable `crypto.Hash` (in particular the zero value). -/
structure Details where
  Algorithm : Option HashAlg
  Host : String
  Port : String
  URI : String
  ContentType : String
  Content : List Nat
  Method : String
  Timestamp : Int
  Nonce : String
  Ext : String
deriving Repr, DecidableEq

/-- Method `Details.Create` (src/hawk.go:98-132).  The ambient defaults
`time.Now().Unix()` and `NewNonce(6)` are passed explicitly as `now` and
`freshNonce`.  The function mirrors the source faithfully, including the
slip on line 112: after building `err` for a missing field it executes
`return Hawk{}, nil`, discarding the error. -/
def create (hd : Details) (now : Int) (freshNonce : String) : Hawk × Option String :=
  let err : Option String :=
    if hd.Algorithm.isNone then some "No algorithm provided"
    else if hd.Host = "" then some "No host provided"
    else if hd.Port = "" then some "No port provided"
    else if hd.URI = "" then some "No URI provided"
    else if hd.Method = "" then some "No method provided"
    else none
  if err.isSome then (hawkZero, none)
  else
    match hd.Algorithm with
    | none => (hawkZero, none)
    | some a =>
      let h : Hawk :=
        { algorithm := a, host := hd.Host, port := hd.Port, uri := hd.URI,
          method := hd.Method, timestamp := hd.Timestamp, nonce := hd.Nonce,
          reqContentType := hd.ContentType, reqContent := hd.Content,
          reqExt := hd.Ext, reqHash := "", reqMAC := "",
          respContentType := "", respContent := [], respExt := "",
          respHash := "", respMAC := "" }
      let h := if h.nonce = "" then { h with nonce := freshNonce } else h
      let h := if h.timestamp = 0 then { h with timestamp := now } else h
      (h, none)

/-! ## Canonicalization and MAC (src/hawk.go:195-263) -/

/-- Function `hashPayload`: base64 digest of `"hawk.1.payload\n" + ct + "\n" + c + "\n"`. -/
def hashPayload (a : HashAlg) (ct : String) (c : List Nat) : String :=
  base64 (algDigest a (strBytes "hawk.1.payload\n" ++ strBytes ct ++ [10] ++ c ++ [10]))

/-- Function `hashMAC`: base64 HMAC of the newline-separated header preimage. -/
def hashMAC (a : HashAlg) (k : List Nat) (ts : Int) (n mtd uri hst p hsh ext : String) :
    String :=
  base64 (algHMAC a k
    (strBytes "hawk.1.header\n" ++ strBytes (toString ts) ++ [10] ++
     strBytes n ++ [10] ++ strBytes mtd ++ [10] ++ strBytes uri ++ [10] ++
     strBytes hst ++ [10] ++ strBytes p ++ [10] ++ strBytes hsh ++ [10] ++
     strBytes ext ++ [10]))

/-- Method `Hawk.Validate` (src/hawk.go:207-213): sets the request payload hash
unless the MAC is already set or the content type is empty. -/
def validate (h : Hawk) : Bool × Hawk :=
  if h.reqMAC ≠ "" ∨ h.reqContentType = "" then (false, h)
  else (true, { h with reqHash := hashPayload h.algorithm h.reqContentType h.reqContent })

/-- Method `Hawk.Finalize` (src/hawk.go:266-272): computes and sets the request MAC. -/
def finalize (h : Hawk) (key : List Nat) : Bool × Hawk :=
  if h.timestamp = 0 ∨ h.nonce = "" ∨ h.method = "" ∨ h.uri = "" ∨ h.host = "" ∨
      h.port = "" ∨ h.reqMAC ≠ "" then (false, h)
  else
    let m := hashMAC h.algorithm key h.timestamp h.nonce h.method h.uri h.host h.port
      h.reqHash h.reqExt
    (true, { h with reqMAC := m })

/-- Method `Hawk.GetAuthorization` (src/hawk.go:286-299). -/
def getAuthorization (h : Hawk) (uid : String) : String :=
  if h.reqMAC = "" then ""
  else
    let hc := "Hawk id=\"" ++ uid ++ "\", ts=\"" ++ toString h.timestamp ++
      "\", nonce=\"" ++ h.nonce ++ "\""
    let hc := if h.reqHash ≠ "" then hc ++ ", hash=\"" ++ h.reqHash ++ "\"" else hc
    let hc := if h.reqExt ≠ "" then hc ++ ", ext=\"" ++ h.reqExt ++ "\"" else hc
    hc ++ ", mac=\"" ++ h.reqMAC ++ "\""

/-! ## Server-Authorization parsing and response validation
(src/hawk.go:164, 217-253) -/

/-- A received HTTP response, reduced to what `ValidateResponse` reads:
`r.Header.Get("Content-Type")` and `r.Header.Get("Server-Authorization")`
(both `""` when absent) and the optional body bytes (`r.Body`). -/
structure Response where
  contentType : String
  serverAuth : String
  body : Option (List Nat)
deriving Repr, DecidableEq

/-- RE2 `\w`: ASCII word characters. -/
def isWordChar (c : Char) : Bool := c.isAlphanum || c = '_'

/-- All matches of the Go pattern against a character list, leftmost-first
with the scan resuming after each match, exactly as
`regexp.FindAllSubmatch` behaves on this pattern: a maximal word run must be
followed by a quote-delimited value (which cannot contain a quote). The fuel
argument only drives the recursion; `findPairs` supplies enough. -/
def findPairsAux : Nat → List Char → List (String × String)
  | 0, _ => []
  | _, [] => []
  | fuel + 1, c :: rest =>
    if isWordChar c then
      let key := (c :: rest).takeWhile isWordChar
      match (c :: rest).dropWhile isWordChar with
      | '=' :: '"' :: rest2 =>
        if rest2.any (fun d => d = '"') then
          let v := rest2.takeWhile (fun d => d ≠ '"')
          let rest3 := (rest2.dropWhile (fun d => d ≠ '"')).tail
          (⟨key⟩, ⟨v⟩) :: findPairsAux fuel rest3
        else findPairsAux fuel rest
      | _ => findPairsAux fuel rest
    else findPairsAux fuel rest

/-- The `key="value"` pairs of a header value, in order of occurrence
(the `hawkPattern` regexp of src/hawk.go:164). -/
def findPairs (s : String) : List (String × String) :=
  findPairsAux s.data.length s.data

/-- The switch in the parse loop of `ValidateResponse` (src/hawk.go:227-238):
each parsed pair overwrites the matching response field; unknown keys fall
through. -/
def applyPairs (h : Hawk) (ps : List (String × String)) : Hawk :=
  ps.foldl
    (fun h p =>
      if p.1 = "ext" then { h with respExt := p.2 }
      else if p.1 = "hash" then { h with respHash := p.2 }
      else if p.1 = "mac" then { h with respMAC := p.2 }
      else h)
    h

/-- Go `ct[:strings.Index(ct, ";")]`: the content type up to the first `;`. -/
def stripParams (ct : String) : String := ⟨ct.data.takeWhile (fun c => c ≠ ';')⟩

/-- The content-type update of `ValidateResponse` (src/hawk.go:218-223):
a non-empty header value is stored, with any `;` parameter suffix stripped;
an empty header leaves the field untouched. -/
def updateContentType (h : Hawk) (ct : String) : Hawk :=
  if ct ≠ "" ∧ ct.data.any (fun c => c = ';') then { h with respContentType := stripParams ct }
  else if ct ≠ "" then { h with respContentType := ct }
  else h

/-- The state mutations of `ValidateResponse` before any check: content type,
parsed header pairs, body bytes. -/
def respState (h : Hawk) (r : Response) : Hawk :=
  let h1 := updateContentType h r.contentType
  let h2 := applyPairs h1 (findPairs r.serverAuth)
  match r.body with
  | some b => { h2 with respContent := b }
  | none => h2

/-- Method `Hawk.ValidateResponse` (src/hawk.go:217-253), returning the boolean
verdict together with the mutated receiver. -/
def validateResponse (h : Hawk) (k : List Nat) (r : Response) : Bool × Hawk :=
  let h2 := respState h r
  let calcHash := hashPayload h2.algorithm h2.respContentType h2.respContent
  if h2.respHash ≠ "" ∧ h2.respHash ≠ calcHash then (false, h2)
  else
    let calcMAC := hashMAC h2.algorithm k h2.timestamp h2.nonce h2.method h2.uri
      h2.host h2.port h2.respHash h2.respExt
    if h2.respMAC ≠ calcMAC then (false, h2) else (true, h2)

/-! ## URL decomposition (src/hawk.go:159-161, 303-321)

The `urlPattern` regexp `(http|https)://([^:/]+)(:([0-9]+))?(/(.+)?)?`,
anchored on both sides, applied by `Client.NewRequest`; subgroup 3 is the
port group with its colon, subgroup 4 the digits, subgroup 5 the URI with
its slash. -/

/-- The captured subgroups of a successful `urlPattern` match. -/
structure URLParts where
  scheme : String
  host : String
  portGroup : String
  portDigits : String
  uriGroup : String
deriving Repr, DecidableEq

/-- Match `(/(.+)?)?$` against the remainder: empty, or a slash followed by
anything without a newline (RE2 `.` excludes newline and `$` is end of text). -/
def uriPart : List Char → Option String
  | [] => some ""
  | '/' :: t => if t.any (fun c => c = '\n') then none else some ⟨'/' :: t⟩
  | _ => none

/-- Match `([^:/]+)(:([0-9]+))?(/(.+)?)?$` after the scheme separator. -/
def matchTail (scheme : String) (rest : List Char) : Option URLParts :=
  let host := rest.takeWhile (fun c => c ≠ ':' ∧ c ≠ '/')
  if host = [] then none
  else
    match rest.dropWhile (fun c => c ≠ ':' ∧ c ≠ '/') with
    | ':' :: r2 =>
      let digits := r2.takeWhile Char.isDigit
      if digits = [] then none
      else
        (uriPart (r2.dropWhile Char.isDigit)).map
          (fun u => ⟨scheme, ⟨host⟩, ⟨':' :: digits⟩, ⟨digits⟩, u⟩)
    | r1 => (uriPart r1).map (fun u => ⟨scheme, ⟨host⟩, "", "", u⟩)

/-- The anchored `urlPattern` match of `Client.NewRequest`. `none` models the
`Failed to parse URL` error path (src/hawk.go:310-312). -/
def matchURL (url : String) : Option URLParts :=
  if url.data.take 7 = "http://".data then matchTail "http" (url.data.drop 7)
  else if url.data.take 8 = "https://".data then matchTail "https" (url.data.drop 8)
  else none

/-- The port selection of `Client.NewRequest` (src/hawk.go:314-321): an
explicit port group wins, otherwise 443 for https and 80 for http. -/
def clientPort (p : URLParts) : String :=
  if p.portGroup ≠ "" then p.portDigits
  else if p.scheme = "https" then "443"
  else if p.scheme = "http" then "80"
  else ""

/-! ## Nonce generation (src/hawk.go:167-193)

`NewNonce` draws 63-bit samples from the package random source and consumes
them six bits at a time; the source becomes an explicit `stream` parameter
(one entry per `Int63()` call).  The Go loop runs until the buffer is full,
which need not terminate on an adversarial bit stream, so the recursion
carries fuel and returns `none` when the fuel or the modelled stream runs
out. -/

/-- The 62-letter alphabet of `letterBytes`. -/
def letterBytes : String := "0123456789abcdefghijklmnopqrstuvwxyzABCDEFGHIJKLMNOPQRSTUVWXYZ"

/-- Constant `letterIdxMask`: six low bits. -/
def letterIdxMask : Nat := 63

/-- Constant `letterIdxMax`: draws available in one 63-bit sample. -/
def letterIdxMax : Nat := 10

/-- The loop of `NewNonce` (src/hawk.go:181-191).  `i` counts down the
remaining buffer positions; the output accumulates by prepending because the
Go code fills the buffer from its end.  Each iteration first refreshes the
cache when `remain` hits zero, then accepts the six low bits as a letter
index only when below the alphabet size, and finally shifts the cache. -/
def nonceAux : Nat → Int → Nat → Nat → List Char → List Nat → Option (List Char)
  | 0, _, _, _, _, _ => none
  | fuel + 1, i, cache, remain, acc, stream =>
    if i < 0 then some acc
    else
      match (if remain = 0 then stream.head?.map (fun r => (r, letterIdxMax, stream.tail))
             else some (cache, remain, stream)) with
      | none => none
      | some (c, rem, st) =>
        if c &&& letterIdxMask < letterBytes.length then
          nonceAux fuel (i - 1) (c >>> 6) (rem - 1)
            (letterBytes.data.getD (c &&& letterIdxMask) 'A' :: acc) st
        else
          nonceAux fuel i (c >>> 6) (rem - 1) acc st

/-- Function `NewNonce(n)` for a given random stream; the head of the stream is the
initial `Int63()` call of the loop header. -/
def newNonce (n : Nat) (stream : List Nat) (fuel : Nat) : Option String :=
  match stream with
  | [] => none
  | r :: rs => (nonceAux fuel ((n : Int) - 1) r letterIdxMax [] rs).map (fun l => ⟨l⟩)

/-! ## Spec-side definitions

These follow the wording of the specification (sections 4.4, 4.5, 6) rather
than the source, for comparison against the embedded code. -/

/-- The last value bound to `key` in a pair list, with a default: the
duplicate-keys-resolved-by-last-value-wins reading of the specification. -/
def lastValWith (key : String) (ps : List (String × String)) (dflt : String) : String :=
  ps.foldl (fun acc p => if p.1 = key then p.2 else acc) dflt

/-- The last value bound to `key`, `none` when the key never occurs. -/
def lastValOpt (key : String) (ps : List (String × String)) : Option String :=
  ps.foldl (fun acc p => if p.1 = key then some p.2 else acc) none

/-- Section 6 header grammar:
`Hawk id="<id>", ts="<unix-seconds>", nonce="<nonce>"[, hash="<b64>"][, ext="<ext>"], mac="<b64>"`. -/
def specAuthorization (uid : String) (ts : Int) (nonce hash ext mac : String) : String :=
  "Hawk id=\"" ++ uid ++ "\", ts=\"" ++ toString ts ++ "\", nonce=\"" ++ nonce ++ "\"" ++
  (if hash ≠ "" then ", hash=\"" ++ hash ++ "\"" else "") ++
  (if ext ≠ "" then ", ext=\"" ++ ext ++ "\"" else "") ++
  ", mac=\"" ++ mac ++ "\""

/-- The response content type the verifier hashes: unchanged when the header
is absent, otherwise stripped of any `;` parameter suffix (spec 4.5 step 2). -/
def specRespCT (h : Hawk) (ct : String) : String :=
  if ct = "" then h.respContentType else stripParams ct

/-- The response body the verifier hashes: the received bytes, or the stored
ones when the response carries no body. -/
def specRespBody (h : Hawk) (r : Response) : List Nat :=
  r.body.getD h.respContent

/-- Claim C2 as stated: both checks of spec 4.5 steps 3-5, with the MAC
recomputed over the peer-supplied-OR-RECOMPUTED payload hash. -/
def claimResponseAccepts (h : Hawk) (k : List Nat) (r : Response) : Bool :=
  let ps := findPairs r.serverAuth
  let recomputed := hashPayload h.algorithm (specRespCT h r.contentType) (specRespBody h r)
  let hashCheck := match lastValOpt "hash" ps with
    | some ph => decide (ph = recomputed)
    | none => true
  let usedHash := (lastValOpt "hash" ps).getD recomputed
  let mc := lastValWith "mac" ps h.respMAC
  let ext := lastValWith "ext" ps h.respExt
  hashCheck &&
    decide (mc = hashMAC h.algorithm k h.timestamp h.nonce h.method h.uri h.host h.port
      usedHash ext)

/-- Claim C2 amended: the MAC check uses the parsed hash field — the
peer-supplied hash when present (a present-but-empty one counting as
absent), the empty string otherwise — never the recomputed payload hash. -/
def amendedResponseAccepts (h : Hawk) (k : List Nat) (r : Response) : Bool :=
  let ps := findPairs r.serverAuth
  let hsh := lastValWith "hash" ps h.respHash
  let ext := lastValWith "ext" ps h.respExt
  let mc := lastValWith "mac" ps h.respMAC
  let recomputed := hashPayload h.algorithm (specRespCT h r.contentType) (specRespBody h r)
  (decide (hsh = "") || decide (hsh = recomputed)) &&
    decide (mc = hashMAC h.algorithm k h.timestamp h.nonce h.method h.uri h.host h.port
      hsh ext)

/-! ## Concrete test data

The protocol known-answer envelope (spec section 8, mirrored by the
repository test suite). -/

/-- The shared secret of known-answer vector 1. -/
def keyStd : List Nat := strBytes "werxhqb98rpaxn39848xrunpaw3489ruxnpa98w4rxn"

/-- The envelope of known-answer vector 1. -/
def detailsStd : Details :=
  { Algorithm := some .SHA256, Host := "example.com", Port := "8000",
    URI := "/resource/1?b=1&a=2", ContentType := "", Content := [],
    Method := "GET", Timestamp := 1353832234, Nonce := "j4h3g2",
    Ext := "some-app-ext-data" }

/-- The context created from the known-answer envelope (both defaults are
unused because the envelope fixes nonce and timestamp). -/
def hawkStd : Hawk := (create detailsStd 0 "").1

/-- A `Details` value with every field at its zero value. -/
def detailsEmpty : Details := ⟨none, "", "", "", "", [], "", 0, "", ""⟩

/-- A `Details` value that is valid except for the missing host. -/
def detailsNoHost : Details := ⟨some .SHA256, "", "8000", "/x", "", [], "GET", 5, "n", ""⟩

/-- A response MAC over the known-answer envelope with empty payload hash and
empty extension data — what the embedded code itself computes for a response
that supplies neither. -/
def macNoHash : String :=
  hashMAC .SHA256 keyStd 1353832234 "j4h3g2" "GET" "/resource/1?b=1&a=2" "example.com"
    "8000" "" ""

/-- A response carrying only a `mac` pair (no `hash`, no `ext`). -/
def respNoHash : Response :=
  { contentType := "text/plain", serverAuth := "mac=\"" ++ macNoHash ++ "\"",
    body := some (strBytes "Hello") }

/-- The context state after a first, successful response validation. -/
def hawkReplayed : Hawk := (validateResponse hawkStd keyStd respNoHash).2

/-- A response whose Server-Authorization value contains no pair at all. -/
def respEmptyAuth : Response :=
  { contentType := "text/plain", serverAuth := "", body := some (strBytes "Hello") }

/-- A concrete random stream for the nonce generator. -/
def streamW : List Nat := [1234567890123456789, 987654321987654321]

/-! ## Helper lemmas -/

theorem sha256_ne_nil (m : List Nat) : sha256 m ≠ [] := by
  simp [sha256, digestBytes, word2bytes]

theorem algHMAC_ne_nil (a : HashAlg) (k m : List Nat) : algHMAC a k m ≠ [] := by
  cases a
  simp only [algHMAC, hmacSha256]
  exact sha256_ne_nil _

theorem b64Aux_cons_ne_nil (f : Nat) (b : Nat) (l : List Nat) :
    b64Aux (f + 1) (b :: l) ≠ [] := by
  match l with
  | [] => simp [b64Aux]
  | [b1] => simp [b64Aux]
  | b1 :: b2 :: t => simp [b64Aux]

theorem base64_ne_empty (bs : List Nat) (hbs : bs ≠ []) : base64 bs ≠ "" := by
  match bs with
  | [] => exact absurd rfl hbs
  | b :: l =>
    simp only [base64, List.length_cons]
    intro hcontra
    exact b64Aux_cons_ne_nil l.length b l (congrArg String.data hcontra)

theorem hashMAC_ne_empty (a : HashAlg) (k : List Nat) (ts : Int)
    (n mtd uri hst p hsh ext : String) :
    hashMAC a k ts n mtd uri hst p hsh ext ≠ "" :=
  base64_ne_empty _ (algHMAC_ne_nil a k _)

theorem applyPairs_eq (h : Hawk) (ps : List (String × String)) :
    applyPairs h ps =
      { h with respExt := lastValWith "ext" ps h.respExt,
               respHash := lastValWith "hash" ps h.respHash,
               respMAC := lastValWith "mac" ps h.respMAC } := by
  induction ps generalizing h with
  | nil => simp [applyPairs, lastValWith]
  | cons p ps ih =>
    simp only [applyPairs, List.foldl_cons, lastValWith] at ih ⊢
    rw [ih]
    by_cases hext : p.1 = "ext" <;> by_cases hhsh : p.1 = "hash" <;>
      by_cases hmc : p.1 = "mac" <;> simp_all

theorem takeWhile_ne_of_not_mem (l : List Char) (h : ';' ∉ l) :
    l.takeWhile (fun c => c ≠ ';') = l := by
  induction l with
  | nil => rfl
  | cons c t ih =>
    simp only [List.takeWhile_cons]
    have hc : c ≠ ';' := fun e => h (e ▸ List.mem_cons_self c t)
    simp [hc]
    exact fun x hx e => h (e ▸ List.mem_cons_of_mem c hx)

theorem stripParams_of_no_semi (ct : String) (hct : ';' ∉ ct.data) :
    stripParams ct = ct := by
  apply String.ext
  simp only [stripParams]
  exact takeWhile_ne_of_not_mem ct.data hct

theorem updateContentType_eq (h : Hawk) (ct : String) :
    updateContentType h ct = { h with respContentType := specRespCT h ct } := by
  unfold updateContentType specRespCT
  by_cases h0 : ct = ""
  · simp [h0]
  · by_cases h1 : ct.data.any (fun c => c = ';')
    · simp [h0, h1]
    · have h2 : stripParams ct = ct := stripParams_of_no_semi ct (by simpa using h1)
      simp [h0, h1, h2]

theorem respState_eq (h : Hawk) (r : Response) :
    respState h r =
      { h with respContentType := specRespCT h r.contentType,
               respContent := specRespBody h r,
               respExt := lastValWith "ext" (findPairs r.serverAuth) h.respExt,
               respHash := lastValWith "hash" (findPairs r.serverAuth) h.respHash,
               respMAC := lastValWith "mac" (findPairs r.serverAuth) h.respMAC } := by
  simp only [respState, updateContentType_eq, applyPairs_eq, specRespBody]
  cases r.body <;> rfl

theorem validateResponse_snd (h : Hawk) (k : List Nat) (r : Response) :
    (validateResponse h k r).2 = respState h r := by
  simp only [validateResponse]
  split
  · rfl
  · split <;> rfl

theorem lastValWith_of_no_key (key : String) (ps : List (String × String)) (d : String)
    (hk : ∀ p ∈ ps, p.1 ≠ key) : lastValWith key ps d = d := by
  induction ps generalizing d with
  | nil => rfl
  | cons p ps ih =>
    simp only [lastValWith, List.foldl_cons] at ih ⊢
    rw [if_neg (hk p (List.mem_cons_self p ps))]
    exact ih d (fun q hq => hk q (List.mem_cons_of_mem p hq))

theorem str_data_empty : ("" : String).data = [] := rfl

theorem str_append_assoc (a b c : String) : a ++ b ++ c = a ++ (b ++ c) := by
  apply String.ext
  simp [String.data_append, List.append_assoc]

theorem str_append_empty (a : String) : a ++ "" = a := by
  apply String.ext
  simp [String.data_append, str_data_empty]

/-! ## Claim theorems -/

/-- C1: the claim says `Create` fails with an error naming the missing field
whenever `algorithm`, `host`, `port`, `uri` or `method` is missing.  The code
builds that error but then returns the zero context together with a nil
error (src/hawk.go:111-112), discarding it: the error component of `Create` is
`none` on every input, in particular on a `Details` value with every field
missing and on one missing only the host, both of which also receive the
zero context. -/
theorem create_always_nil_error :
    (∀ (hd : Details) (now : Int) (freshNonce : String), (create hd now freshNonce).2 = none) ∧
    create detailsEmpty 1700000000 "abc123" = (hawkZero, none) ∧
    create detailsNoHost 1700000000 "abc123" = (hawkZero, none) := by
  refine ⟨?_, by decide, by decide⟩
  intro hd now freshNonce
  simp only [create]
  split_ifs <;> (try rfl) <;> (cases hd.Algorithm <;> rfl)

/-- C4: the known-answer envelope with the SHA-256 key
`werxhqb98rpaxn39848xrunpaw3489ruxnpa98w4rxn` finalizes to the MAC
`6R4rV5iE+NPoym+WwjeHzjAGXUtLNIxmo1vpMofpLAE=` and emits exactly the
documented header for id `dh37fgj492je`. -/
theorem known_answer_vector_one :
    (finalize hawkStd keyStd).1 = true ∧
    (finalize hawkStd keyStd).2.reqMAC = "6R4rV5iE+NPoym+WwjeHzjAGXUtLNIxmo1vpMofpLAE=" ∧
    getAuthorization (finalize hawkStd keyStd).2 "dh37fgj492je" =
      "Hawk id=\"dh37fgj492je\", ts=\"1353832234\", nonce=\"j4h3g2\", ext=\"some-app-ext-data\", mac=\"6R4rV5iE+NPoym+WwjeHzjAGXUtLNIxmo1vpMofpLAE=\"" := by
  decide

/-- C6: `GetAuthorization` yields the empty string while the MAC is unset,
and otherwise exactly the section-6 grammar: `id`, `ts`, `nonce`, then
`hash` only when non-empty, then `ext` only when non-empty, then `mac`, in
that order with comma-space separators. -/
theorem getAuthorization_grammar (h : Hawk) (uid : String) :
    getAuthorization h uid =
      if h.reqMAC = "" then ""
      else specAuthorization uid h.timestamp h.nonce h.reqHash h.reqExt h.reqMAC := by
  unfold getAuthorization specAuthorization
  split_ifs <;> simp only [str_append_assoc, str_append_empty]

/-- C6 witness: the grammar theorem applied to the known-answer context,
whose emitted header the grammar reproduces. -/
theorem getAuthorization_grammar_witness :
    getAuthorization (finalize hawkStd keyStd).2 "dh37fgj492je" =
      specAuthorization "dh37fgj492je" 1353832234 "j4h3g2" "" "some-app-ext-data"
        ((finalize hawkStd keyStd).2.reqMAC) := by
  rw [getAuthorization_grammar (finalize hawkStd keyStd).2 "dh37fgj492je"]
  decide

/-- C7: the parse loop keeps, for each of `ext`, `hash` and `mac`, the value
of the last pair carrying that key and ignores every other key; pairs are
extracted wherever they occur, so reordering the header and inserting
unknown pairs leaves the resulting state unchanged. -/
theorem header_pair_parsing :
    (∀ (h : Hawk) (ps : List (String × String)),
        applyPairs h ps =
          { h with respExt := lastValWith "ext" ps h.respExt,
                   respHash := lastValWith "hash" ps h.respHash,
                   respMAC := lastValWith "mac" ps h.respMAC }) ∧
    findPairs "Hawk mac=\"m1\", hash=\"h1\", foo=\"x\", ext=\"e1\", mac=\"m2\"" =
      [("mac", "m1"), ("hash", "h1"), ("foo", "x"), ("ext", "e1"), ("mac", "m2")] ∧
    applyPairs hawkStd (findPairs "Hawk mac=\"m1\", hash=\"h1\", foo=\"x\", ext=\"e1\", mac=\"m2\"") =
      applyPairs hawkStd (findPairs "ext=\"e1\", mac=\"m2\", hash=\"h1\"") ∧
    (applyPairs hawkStd (findPairs "ext=\"e1\", mac=\"m2\", hash=\"h1\"")).respMAC = "m2" := by
  refine ⟨applyPairs_eq, by decide, by decide, by decide⟩

/-- C2 counterexample: the claim, as stated, computes the MAC over the
peer-supplied-or-RECOMPUTED payload hash.  For a response that supplies a
`mac` pair but no `hash` pair, the code accepts with the MAC computed over
the EMPTY hash (src/hawk.go:248 passes `h.respHash`, still `""`), while the
claimed condition demands the recomputed payload hash and rejects. -/
theorem response_claim_c2_counterexample :
    (validateResponse hawkStd keyStd respNoHash).1 = true ∧
    claimResponseAccepts hawkStd keyStd respNoHash = false := by
  decide

/-- C2 amended: `ValidateResponse` accepts exactly when (1) the parsed hash
field, when non-empty, equals the recomputed payload hash, and (2) the
parsed mac field equals the MAC recomputed from the envelope fields, the
parsed hash field (the peer-supplied hash when present and non-empty, the
stored — initially empty — value otherwise, never the recomputed payload
hash) and the parsed extension data. -/
theorem validateResponse_accepts_iff (h : Hawk) (k : List Nat) (r : Response) :
    (validateResponse h k r).1 = amendedResponseAccepts h k r := by
  simp only [validateResponse, amendedResponseAccepts, respState_eq]
  split_ifs with hA hB
  · simp [hA.1, hA.2]
  · simp [hB]
  · rw [not_and_or, not_not, not_not] at hA
    simp only [ne_eq, not_not] at hB
    rcases hA with hA | hA <;> simp [hA, hB]

/-- C3: once `Finalize` has set the request MAC, a second `Finalize` returns
false and leaves the context untouched, `Validate` returns false and leaves
the context untouched, and `ValidateResponse` never changes the stored
request MAC. -/
theorem mac_write_once (h : Hawk) (k1 : List Nat) (hfin : (finalize h k1).1 = true) :
    ∀ (k2 key : List Nat) (r : Response),
      finalize (finalize h k1).2 k2 = (false, (finalize h k1).2) ∧
      validate (finalize h k1).2 = (false, (finalize h k1).2) ∧
      ((validateResponse (finalize h k1).2 key r).2).reqMAC = ((finalize h k1).2).reqMAC := by
  intro k2 key r
  have h2eq : finalize h k1 = (true, { h with reqMAC := hashMAC h.algorithm k1 h.timestamp h.nonce h.method h.uri h.host h.port h.reqHash h.reqExt }) := by
    unfold finalize at hfin ⊢
    split at hfin
    · simp at hfin
    · rename_i hg
      rw [if_neg hg]
  rw [h2eq]
  refine ⟨?_, ?_, ?_⟩
  · simp [finalize, hashMAC_ne_empty]
  · simp [validate, hashMAC_ne_empty]
  · rw [validateResponse_snd, respState_eq]

/-- C3 witness: the write-once theorem applied to the known-answer context:
its finalization succeeds, and refinalizing it fails without changing it. -/
theorem mac_write_once_witness :
    (finalize hawkStd keyStd).1 = true ∧
    finalize (finalize hawkStd keyStd).2 keyStd = (false, (finalize hawkStd keyStd).2) := by
  constructor
  · decide
  · exact (mac_write_once hawkStd keyStd (by decide) keyStd keyStd respEmptyAuth).1

/-- C10 counterexample: the claim quantifies over every Hawk context, but a
context that has already validated one response keeps the parsed mac in
`respMAC`; replaying the same response with the Server-Authorization header
emptied (no `mac` pair at all) is then accepted. -/
theorem no_mac_pair_counterexample :
    findPairs respEmptyAuth.serverAuth = [] ∧
    (validateResponse hawkReplayed keyStd respEmptyAuth).1 = true := by
  decide

/-- C10 amended: for every context whose stored response MAC is still empty
— as it is for every context produced by `Create` — a response without a
`mac` pair is rejected: the recomputed MAC is the base64 of a non-empty
HMAC digest, so it never equals the empty parsed field. -/
theorem no_mac_pair_rejected (h : Hawk) (k : List Nat) (r : Response)
    (hmac0 : h.respMAC = "")
    (hnomac : ∀ p ∈ findPairs r.serverAuth, p.1 ≠ "mac") :
    (validateResponse h k r).1 = false := by
  have hrm : (respState h r).respMAC = "" := by
    rw [respState_eq]
    dsimp only
    rw [lastValWith_of_no_key _ _ _ hnomac, hmac0]
  simp only [validateResponse]
  split_ifs with hA hB
  · rfl
  · rfl
  · simp only [ne_eq, not_not] at hB
    rw [hrm] at hB
    exact absurd hB.symm (hashMAC_ne_empty _ _ _ _ _ _ _ _ _ _)

/-- C10 amended witness: a fresh known-answer context rejects a response
with an empty Server-Authorization value. -/
theorem no_mac_pair_rejected_witness :
    (validateResponse hawkStd keyStd respEmptyAuth).1 = false :=
  no_mac_pair_rejected hawkStd keyStd respEmptyAuth (by decide) (by decide)

theorem nonceAux_spec (fuel : Nat) :
    ∀ (i : Int) (cache remain : Nat) (acc : List Char) (stream : List Nat) (l : List Char),
      nonceAux fuel i cache remain acc stream = some l →
      l.length = (i + 1).toNat + acc.length ∧ ∀ c ∈ l, c ∈ letterBytes.data ∨ c ∈ acc := by
  induction fuel with
  | zero =>
    intro i cache remain acc stream l h
    simp [nonceAux] at h
  | succ f ih =>
    intro i cache remain acc stream l h
    rw [nonceAux] at h
    split at h
    · rename_i hi
      injection h with h
      subst h
      exact ⟨by omega, fun c hc => Or.inr hc⟩
    · rename_i hi
      split at h
      · simp at h
      · rename_i c0 rem0 st0 heq
        split at h
        · rename_i hidx
          obtain ⟨hlen, hmem⟩ := ih _ _ _ _ _ _ h
          refine ⟨?_, ?_⟩
          · simp only [List.length_cons] at hlen
            omega
          · intro c hc
            rcases hmem c hc with hlet | hacc
            · exact Or.inl hlet
            · rcases List.mem_cons.mp hacc with rfl | hacc2
              · refine Or.inl ?_
                have hlt : c0 &&& letterIdxMask < letterBytes.data.length := hidx
                rw [List.getD_eq_getElem letterBytes.data 'A' hlt]
                exact List.getElem_mem hlt
              · exact Or.inr hacc2
        · obtain ⟨hlen, hmem⟩ := ih _ _ _ _ _ _ h
          exact ⟨hlen, hmem⟩

/-- C8: whenever the nonce generator completes (enough fuel and modelled
randomness), its output has exactly the requested length and draws every
character from the 62-symbol alphanumeric alphabet; `n = 0` completes
immediately with the empty string; and a six-bit sample at or above the
alphabet size is discarded — the loop state other than the shifted cache is
unchanged — rather than reduced modulo 62. -/
theorem nonce_spec :
    (∀ (n : Nat) (stream : List Nat) (fuel : Nat) (s : String),
        newNonce n stream fuel = some s →
        s.length = n ∧ ∀ c ∈ s.data, c ∈ letterBytes.data) ∧
    (∀ (r : Nat) (rs : List Nat) (fuel : Nat), newNonce 0 (r :: rs) (fuel + 1) = some "") ∧
    (∀ (fuel : Nat) (i : Int) (cache remain : Nat) (acc : List Char) (stream : List Nat),
        ¬ i < 0 → remain ≠ 0 → letterBytes.length ≤ cache &&& letterIdxMask →
        nonceAux (fuel + 1) i cache remain acc stream =
          nonceAux fuel i (cache >>> 6) (remain - 1) acc stream) := by
  refine ⟨?_, ?_, ?_⟩
  · intro n stream fuel s h
    match stream with
    | [] => simp [newNonce] at h
    | r :: rs =>
      rw [newNonce] at h
      rcases Option.map_eq_some'.mp h with ⟨l, hl, rfl⟩
      obtain ⟨hlen, hmem⟩ := nonceAux_spec fuel _ _ _ _ _ _ hl
      refine ⟨?_, ?_⟩
      · rw [String.length_mk]
        simpa using hlen
      · intro c hc
        rcases hmem c hc with hlet | habs
        · exact hlet
        · simp at habs
  · intro r rs fuel
    rw [newNonce, nonceAux]
    norm_num
  · intro fuel i cache remain acc stream hi hrem hbig
    rw [nonceAux]
    rw [if_neg hi, if_neg hrem]
    simp only []
    rw [if_neg (by omega)]

/-- C8 witness: the nonce theorem applied to a concrete stream: a length-6
request completes with a 6-character alphanumeric string, and with a cache
of 63 (both six-bit groups out of range) one step discards the sample. -/
theorem nonce_spec_witness :
    ((newNonce 6 streamW 40).getD "").length = 6 ∧
    nonceAux 10 2 63 5 [] [] = nonceAux 9 2 (63 >>> 6) 4 [] [] := by
  constructor
  · exact (nonce_spec.1 6 streamW 40 ((newNonce 6 streamW 40).getD "") (by decide)).1
  · exact nonce_spec.2.2 9 2 63 5 [] [] (by decide) (by decide) (by decide)

theorem uriPart_data (l : List Char) (u : String) (h : uriPart l = some u) : u.data = l := by
  unfold uriPart at h
  split at h
  · injection h with h
    rw [← h]
  · rename_i t
    split at h
    · simp at h
    · injection h with h
      rw [← h]
  · simp at h

theorem matchTail_spec (scheme : String) (rest : List Char) (p : URLParts)
    (h : matchTail scheme rest = some p) :
    p.scheme = scheme ∧ p.host.data ≠ [] ∧
    rest = p.host.data ++ p.portGroup.data ++ p.uriGroup.data ∧
    ((p.portGroup = "" ∧ p.portDigits = "") ∨
      (p.portGroup.data = ':' :: p.portDigits.data ∧ p.portDigits.data ≠ [] ∧
        ∀ c ∈ p.portDigits.data, c.isDigit)) := by
  simp only [matchTail] at h
  split at h
  · simp at h
  · rename_i hhost
    split at h
    · rename_i r2 hdrop
      split at h
      · simp at h
      · rename_i hdig
        rcases Option.map_eq_some'.mp h with ⟨u, hu, rfl⟩
        refine ⟨rfl, hhost, ?_, Or.inr ⟨rfl, hdig, ?_⟩⟩
        · have e1 := List.takeWhile_append_dropWhile
            (p := fun c => decide (c ≠ ':' ∧ c ≠ '/')) (l := rest)
          have e2 := List.takeWhile_append_dropWhile
            (p := fun c => Char.isDigit c) (l := r2)
          rw [uriPart_data _ _ hu]
          calc rest
              = rest.takeWhile (fun c => decide (c ≠ ':' ∧ c ≠ '/')) ++
                  rest.dropWhile (fun c => decide (c ≠ ':' ∧ c ≠ '/')) := e1.symm
            _ = rest.takeWhile (fun c => decide (c ≠ ':' ∧ c ≠ '/')) ++ (':' :: r2) := by
                rw [hdrop]
            _ = _ := by
                rw [← e2]
                simp [List.append_assoc]
        · intro c hc
          exact List.mem_takeWhile_imp hc
    · rename_i r1 hdrop
      rcases Option.map_eq_some'.mp h with ⟨u, hu, rfl⟩
      refine ⟨rfl, hhost, ?_, Or.inl ⟨rfl, rfl⟩⟩
      have e1 := List.takeWhile_append_dropWhile
        (p := fun c => decide (c ≠ ':' ∧ c ≠ '/')) (l := rest)
      rw [uriPart_data _ _ hu]
      simp only [str_data_empty, List.append_nil]
      exact e1.symm

theorem str_ne_empty_of_data_ne (s : String) (h : s.data ≠ []) : s ≠ "" := by
  intro e
  rw [e] at h
  exact h rfl

/-- C9: URL decomposition accepts exactly http and https URLs of the shape
`scheme://host[:port][/path]`: every accepted URL splits into those pieces,
an explicit (necessarily numeric, non-empty) port field is taken as given, a
missing one defaults to 80 for http and 443 for https, and the documented
rejections — an unsupported scheme and a non-numeric port field — are
rejected. -/
theorem url_decomposition :
    (∀ (url : String) (p : URLParts), matchURL url = some p →
        (p.scheme = "http" ∨ p.scheme = "https") ∧
        url = p.scheme ++ "://" ++ p.host ++ p.portGroup ++ p.uriGroup ∧
        p.host ≠ "" ∧
        (p.portGroup = "" → clientPort p = (if p.scheme = "https" then "443" else "80")) ∧
        (p.portGroup ≠ "" →
          p.portGroup = ":" ++ p.portDigits ∧ p.portDigits ≠ "" ∧
          p.portDigits.data.all Char.isDigit = true ∧ clientPort p = p.portDigits)) ∧
    matchURL "ftp://localhost/hello" = none ∧
    matchURL "http://localhost:asd/hello" = none ∧
    matchURL "http://localhost:8000/hello" =
      some ⟨"http", "localhost", ":8000", "8000", "/hello"⟩ ∧
    (matchURL "https://localhost/hello").map clientPort = some "443" := by
  refine ⟨?_, by decide, by decide, by decide, by decide⟩
  intro url p hm
  unfold matchURL at hm
  split_ifs at hm with h7 h8
  · obtain ⟨hs, hh, hrest, hport⟩ := matchTail_spec _ _ _ hm
    refine ⟨Or.inl hs, ?_, str_ne_empty_of_data_ne _ hh, ?_, ?_⟩
    · apply String.ext
      simp only [String.data_append]
      rw [hs]
      have hsplit : ("http://".data : List Char) = "http".data ++ "://".data := by decide
      calc url.data
          = url.data.take 7 ++ url.data.drop 7 := (List.take_append_drop 7 url.data).symm
        _ = "http://".data ++ (p.host.data ++ p.portGroup.data ++ p.uriGroup.data) := by
            rw [h7, hrest]
        _ = _ := by rw [hsplit]; simp [List.append_assoc]
    · intro hpg
      rcases hport with ⟨_, hpd⟩ | ⟨hcons, _, _⟩
      · simp [clientPort, hpg, hs]
      · rw [hpg] at hcons
        simp [str_data_empty] at hcons
    · intro hpg
      rcases hport with ⟨hpg0, _⟩ | ⟨hcons, hne, hdig⟩
      · exact absurd hpg0 hpg
      · refine ⟨?_, str_ne_empty_of_data_ne _ hne,
          List.all_eq_true.mpr (fun c hc => hdig c hc), by simp [clientPort, hpg]⟩
        apply String.ext
        rw [hcons]
        simp only [String.data_append]
        rfl
  · obtain ⟨hs, hh, hrest, hport⟩ := matchTail_spec _ _ _ hm
    refine ⟨Or.inr hs, ?_, str_ne_empty_of_data_ne _ hh, ?_, ?_⟩
    · apply String.ext
      simp only [String.data_append]
      rw [hs]
      have hsplit : ("https://".data : List Char) = "https".data ++ "://".data := by decide
      calc url.data
          = url.data.take 8 ++ url.data.drop 8 := (List.take_append_drop 8 url.data).symm
        _ = "https://".data ++ (p.host.data ++ p.portGroup.data ++ p.uriGroup.data) := by
            rw [h8, hrest]
        _ = _ := by rw [hsplit]; simp [List.append_assoc]
    · intro hpg
      rcases hport with ⟨_, hpd⟩ | ⟨hcons, _, _⟩
      · simp [clientPort, hpg, hs]
      · rw [hpg] at hcons
        simp [str_data_empty] at hcons
    · intro hpg
      rcases hport with ⟨hpg0, _⟩ | ⟨hcons, hne, hdig⟩
      · exact absurd hpg0 hpg
      · refine ⟨?_, str_ne_empty_of_data_ne _ hne,
          List.all_eq_true.mpr (fun c hc => hdig c hc), by simp [clientPort, hpg]⟩
        apply String.ext
        rw [hcons]
        simp only [String.data_append]
        rfl

/-- C9 witness: the decomposition theorem applied to
`http://localhost:8000/hello`: the URL splits as claimed and the explicit
port is taken as given. -/
theorem url_decomposition_witness :
    ("http://localhost:8000/hello" : String) =
      "http" ++ "://" ++ "localhost" ++ ":8000" ++ "/hello" ∧
    clientPort ⟨"http", "localhost", ":8000", "8000", "/hello"⟩ = "8000" := by
  have h := url_decomposition.1 "http://localhost:8000/hello"
    ⟨"http", "localhost", ":8000", "8000", "/hello"⟩ (by decide)
  exact ⟨h.2.1, (h.2.2.2.2 (by decide)).2.2.2⟩

end GoHawk
